import Mathlib

/-!
Verification development for the basketry sorbet-http-client generator.

The generator (src/http-client-factory.ts, src/index.ts / mapper factory,
src/name-factory.ts) takes a service IR and emits Ruby/Sorbet text: one HTTP
client file per interface and one mapper file per service.  This file gives a
shallow embedding of the generator's data model and of the functions the
claims are about, plus a small semantic model (RVal) of the Ruby runtime
behavior of the emitted mapper functions.

External collaborators (the basketry IR enumeration helpers, the `case` npm
package, the @basketry/sorbet name factory, sorbet-runtime and the Ruby
standard library) are modelled explicitly where their behavior matters and
passed in as parameters (`Names`, `Casters`) where the generator treats them
as opaque.
-/

/-! ## Casing helpers (model of the external `case` npm package) -/

/-- Separator characters recognized by the `case` package's word splitter. -/
def isSep (c : Char) : Bool := c == '_' || c == '-' || c == ' ' || c == '.'

/-- Character-level worker for `snake`.  The Boolean tracks whether the
previously emitted character was a lowercase letter or digit, in which case an
underscore is inserted before an uppercase letter. -/
def snakeChars : List Char → Bool → List Char
  | [], _ => []
  | c :: cs, prevWordy =>
    if c.isUpper then (if prevWordy then ['_'] else []) ++ c.toLower :: snakeChars cs false
    else if isSep c then '_' :: snakeChars cs false
    else c :: snakeChars cs (c.isLower || c.isDigit)

/-- Model of `snake` from the external `case` npm package: splits an
identifier at case boundaries and separators, lowercases the words and joins
them with underscores (snake "fooBar" = "foo_bar", snake "FooBar" =
"foo_bar"). -/
def snake (s : String) : String := String.mk (snakeChars s.data false)

/-- Character-level worker for `pascal`.  The Boolean is true at the start of
a word (after a separator or at the beginning). -/
def pascalChars : List Char → Bool → List Char
  | [], _ => []
  | c :: cs, atStart =>
    if isSep c then pascalChars cs true
    else (if atStart then c.toUpper else c) :: pascalChars cs false

/-- Model of `pascal` from the external `case` npm package: capitalizes each
word and removes separators (pascal "foo_bar" = "FooBar"). -/
def pascal (s : String) : String := String.mk (pascalChars s.data true)

/-- Model of JavaScript `String.prototype.split` with a single-character
separator (structural over the character list so that proofs can evaluate
it): the source splits path templates on "/" and lib folders on the path
separator. -/
def splitCharAux (sep : Char) : List Char → List Char → List String
  | [], acc => [String.mk acc.reverse]
  | c :: cs, acc =>
    if c = sep then String.mk acc.reverse :: splitCharAux sep cs []
    else splitCharAux sep cs (c :: acc)

/-- Split on "/" as JavaScript does. -/
def splitSlash (s : String) : List String := splitCharAux '/' s.data []

/-- Model of the namespace split on the two-character separator "::". -/
def splitColonsAux : List Char → List Char → List String
  | [], acc => [String.mk acc.reverse]
  | ':' :: ':' :: cs, acc => String.mk acc.reverse :: splitColonsAux cs []
  | c :: cs, acc => splitColonsAux cs (c :: acc)

/-- Split a Ruby namespace path on "::" as JavaScript split does. -/
def splitNamespace (s : String) : List String := splitColonsAux s.data []

/-- The opening brace character (written via its code point). -/
def lbrace : Char := Char.ofNat 123

/-- The closing brace character (written via its code point). -/
def rbrace : Char := Char.ofNat 125

/-! ## JavaScript `Map` model

The generator builds JavaScript `Map`s with `map.set` and reads them with
`map.get` / iteration.  A JS `Map` keeps insertion order; `set` on an existing
key overwrites the value in place (keeping the original position) and `get`
returns the value of the last `set` for the key.  We model a `Map` as an
association list in insertion order. -/

/-- Model of JavaScript `Map.prototype.set`: replace the value in place when
the key is present, otherwise append the new entry. -/
def jsMapSet {α : Type} (m : List (String × α)) (k : String) (v : α) :
    List (String × α) :=
  if m.any (fun e => e.1 == k) then
    m.map (fun e => if e.1 == k then (k, v) else e)
  else m ++ [(k, v)]

/-- Model of JavaScript `Map.prototype.get`: first entry with the key (entry
lists built with `jsMapSet` have unique keys). -/
def jsMapGet {α : Type} (m : List (String × α)) (k : String) : Option α :=
  m.lookup k

/-- Build a JS `Map` from a list of key/value pairs by repeated `set`, as the
generator's caches do. -/
def jsMapOf {α : Type} (l : List (String × α)) : List (String × α) :=
  l.foldl (fun m e => jsMapSet m e.1 e.2) []

/-- Model of `Array.from(new Set(list))` in JavaScript: deduplicate keeping
the first occurrence of each element, preserving order. -/
def dedupFirstAux : List String → List String → List String
  | [], _ => []
  | x :: xs, seen =>
    if seen.contains x then dedupFirstAux xs seen
    else x :: dedupFirstAux xs (x :: seen)

/-- Entrypoint for first-seen-order deduplication. -/
def dedupFirst (l : List String) : List String := dedupFirstAux l []

/-! ## Text formatting helpers

Modelled from the spec: the repository's `./utils` module (`indent`, `block`,
`from`) is imported by both factories but is not present under `src/`; the
spec treats textual formatting as an out-of-scope helper.  We model them in
the conventional way for this Ruby generator: two-space indentation, a block
is a header line, the indented body and a closing `end`, and `from` joins
lines with newlines. -/

def indentLines (lines : List String) : List String :=
  lines.map (fun l => "  " ++ l)

def rubyBlock (head : String) (body : List String) : List String :=
  head :: indentLines body ++ ["end"]

def fromLines (lines : List String) : String := String.intercalate "\n" lines

/-- Join generated chunks with one blank line between consecutive chunks (the
mapper factory's `hasWritten` pattern). -/
def joinBlocks : List (List String) → List String
  | [] => []
  | [b] => b
  | b :: bs => b ++ "" :: joinBlocks bs

/-! ## Service IR data model (inputs from the basketry package) -/

/-- HTTP binding of one parameter: wire name and transport location.  The
source field `in` (path/query/header/body) is called `location` here because
`in` is a Lean keyword. -/
structure HttpParameter where
  name : String
  location : String
deriving DecidableEq, Repr

/-- One HTTP method bound under a path: the bound API method's name plus the
HTTP verb. -/
structure HttpMethod where
  name : String
  verb : String
deriving DecidableEq, Repr

/-- One HTTP path template with its bound methods. -/
structure HttpPath where
  path : String
  methods : List HttpMethod
deriving DecidableEq, Repr

/-- One security scheme reference.  `isApiKeyScheme` from basketry is modelled
by `kind = "apiKey"`; `parameter` is the header/query parameter name. -/
structure Scheme where
  name : String
  kind : String
  parameter : String
  location : String
deriving DecidableEq, Repr

/-- One method parameter.  `required` models basketry's `isRequired`, which
derives the flag from the parameter's validation rules. -/
structure Parameter where
  name : String
  typeName : String
  isPrimitive : Bool := true
  isArray : Bool := false
  required : Bool := true
deriving DecidableEq, Repr

/-- A method's optional return type reference. -/
structure ReturnType where
  typeName : String
  isPrimitive : Bool := false
  isArray : Bool := false
deriving DecidableEq, Repr

/-- One API method.  `security` is a list of alternatives, each a list of
schemes (OR of ANDs).  Descriptions are modelled as lists of comment lines. -/
structure Method where
  name : String
  parameters : List Parameter := []
  security : List (List Scheme) := []
  returnType : Option ReturnType := none
  description : List String := []
deriving DecidableEq, Repr

/-- One interface: a named group of methods. -/
structure Interface where
  name : String
  methods : List Method := []
  description : List String := []
deriving DecidableEq, Repr

/-- One property of a domain type. -/
structure Property where
  name : String
  typeName : String
  isPrimitive : Bool := true
  isArray : Bool := false
deriving DecidableEq, Repr

/-- One domain type (the source calls it `Type`). -/
structure TypeDef where
  name : String
  properties : List Property := []
deriving DecidableEq, Repr

/-- One enum with its declared member values (serialized forms). -/
structure EnumDef where
  name : String
  members : List String := []
deriving DecidableEq, Repr

/-- The service IR.  `httpPaths` is what the external basketry helper
`allHttpPaths(service)` yields; `paramBindings` is what
`allParameters(service)` yields, as (method name, optional HttpParameter)
pairs — entries without an HttpParameter are skipped by the resolver exactly
as the source's `if (!httpParameter) continue` does. -/
structure Service where
  majorVersion : Nat
  interfaces : List Interface := []
  types : List TypeDef := []
  enums : List EnumDef := []
  httpPaths : List HttpPath := []
  paramBindings : List (String × Option HttpParameter) := []
deriving DecidableEq, Repr

/-! ## Options (src/types.ts surface used by the factories) -/

/-- The `sorbet` options block: magic comments, file includes, interfaces
module override, the `types` custom-caster table and the lib folder. -/
structure SorbetOptions where
  magicComments : List String := []
  fileIncludes : List String := []
  interfacesModule : Option String := none
  types : List (String × String) := []
  lib : Option String := none
deriving DecidableEq, Repr

/-- Top-level generator options. -/
structure Options where
  sorbet : Option SorbetOptions := none
deriving DecidableEq, Repr

/-- Lookup of `options?.sorbet?.types?.[typeName]`: the custom caster
identifier configured for a primitive or type name, if any. -/
def typeOverride (options : Option Options) (name : String) : Option String :=
  match options with
  | none => none
  | some o =>
    match o.sorbet with
    | none => none
    | some s => s.types.lookup name

/-- Read of `options?.sorbet?.magicComments` with a default. -/
def magicCommentsOf (options : Option Options) : List String :=
  match options with
  | none => []
  | some o => match o.sorbet with | none => [] | some s => s.magicComments

/-- Read of `options?.sorbet?.fileIncludes` with a default. -/
def fileIncludesOf (options : Option Options) : List String :=
  match options with
  | none => []
  | some o => match o.sorbet with | none => [] | some s => s.fileIncludes

/-- Read of `options?.sorbet?.interfacesModule`. -/
def interfacesModuleOf (options : Option Options) : Option String :=
  match options with
  | none => none
  | some o => match o.sorbet with | none => none | some s => s.interfacesModule

/-- Read of `options?.sorbet?.lib`. -/
def libOf (options : Option Options) : Option String :=
  match options with
  | none => none
  | some o => match o.sorbet with | none => none | some s => s.lib

/-! ## External name factory (@basketry/sorbet) and warning banner

The client factory calls `buildInterfaceName`, `buildInterfaceNamespace`,
`buildMethodName`, `buildParameterName`, `buildTypeName`, `buildPropertyName`,
`buildNamespace` and `warning` from external packages; the generator treats
them as opaque formatting helpers, so the embedding takes them as a
parameter. -/

structure Names where
  typeNameOfParam : Parameter → String
  typeNameOfReturn : ReturnType → String
  fqTypeName : String → String
  parameterName : Parameter → String
  methodName : Method → String
  propertyName : Property → String
  interfaceName : Interface → String
  interfaceNamespace : String
  ns : Option String → String
  warningText : String

/-! ## Binding Resolver (src/http-client-factory.ts: getHttp, getHttpParameter)

The per-service `WeakMap` caches are pure memoization: the cached map is a
function of the service alone, so the embedding computes it directly. -/

/-- The entries inserted into the `getHttp` cache, in enumeration order: for
every http path and every http method bound under it, the snake-cased method
name mapped to the (HttpMethod, HttpPath) pair. -/
def httpEntries (service : Service) : List (String × (HttpMethod × HttpPath)) :=
  service.httpPaths.flatMap
    (fun hp => hp.methods.map (fun hm => (snake hm.name, (hm, hp))))

/-- Embedding of `getHttp`: builds the map by repeated `Map.set` over the
enumerated entries and reads it at the snake-cased method name. -/
def getHttp (service : Service) (methodName : String) :
    Option (HttpMethod × HttpPath) :=
  jsMapGet (jsMapOf (httpEntries service)) (snake methodName)

/-- The source's cache key for a (method, parameter) name pair. -/
def paramKey (m p : String) : String := snake m ++ "|||" ++ snake p

/-- The entries inserted into the `getHttpParameter` cache: for every
(method, httpParameter) yielded by `allParameters`, skipping entries without
an httpParameter. -/
def paramEntries (service : Service) : List (String × HttpParameter) :=
  service.paramBindings.filterMap
    (fun e =>
      match e.2 with
      | none => none
      | some hp => some (paramKey e.1 hp.name, hp))

/-- Embedding of `getHttpParameter`. -/
def getHttpParameter (service : Service) (methodName parameterName : String) :
    Option HttpParameter :=
  jsMapGet (jsMapOf (paramEntries service)) (paramKey methodName parameterName)

/-! ## Client Generator (src/http-client-factory.ts) -/

/-- Ruby local variable names used by the generated operations (source
constants `uri`, `req`, `res`, `apiRoot`). -/
def uriVar : String := "safe_internal_uri"

def reqVar : String := "safe_internal_req"

def resVar : String := "safe_internal_res"

def apiRoot : String := snake "apiRoot"

/-- Sort key of the source's comparator `(isRequired(a) ? 0 : 1) -
(isRequired(b) ? 0 : 1)`. -/
def sortKey (p : Parameter) : Nat := if p.required then 0 else 1

/-- Stable insertion used to model `Array.prototype.sort`, which is
guaranteed stable by the JS specification. -/
def insertParam (x : Parameter) : List Parameter → List Parameter
  | [] => [x]
  | y :: ys => if sortKey x ≤ sortKey y then x :: y :: ys else y :: insertParam x ys

/-- Embedding of `sortParameters`: stable sort by the required-first
comparator. -/
def sortParameters : List Parameter → List Parameter
  | [] => []
  | x :: xs => insertParam x (sortParameters xs)

/-- Embedding of the source's `comment` helper for a description already
normalized to a list of lines. -/
def commentLines (description : List String) : List String :=
  description.map (fun l => "# " ++ l)

/-- Embedding of `magicComments`: the configured raw comment lines, prefixed
and followed by a blank line when nonempty. -/
def magicCommentLines (options : Option Options) : List String :=
  if (magicCommentsOf options).length ≠ 0 then
    (magicCommentsOf options).map (fun c => "# " ++ c) ++ [""]
  else []

/-- File include lines at the top of a client artifact. -/
def fileIncludeLines (options : Option Options) : List String :=
  if (fileIncludesOf options).length ≠ 0 then
    (fileIncludesOf options).map (fun i => "require '" ++ i ++ "'") ++ [""]
  else []

/-- Embedding of `buildSignatureParameters` before indentation: one entry per
sorted parameter, `name: Type` with optional parameters wrapped in
`T.nilable(...)` and a trailing comma on all but the last entry. -/
def signatureParameterEntries (nm : Names) (method : Method) : List String :=
  (sortParameters method.parameters).enum.map
    (fun e =>
      let comma := if e.1 == method.parameters.length - 1 then "" else ","
      let typeName := nm.typeNameOfParam e.2
      let nilableTypeName :=
        if e.2.required then typeName else "T.nilable(" ++ typeName ++ ")"
      nm.parameterName e.2 ++ ": " ++ nilableTypeName ++ comma)

/-- Embedding of `buildSignatureParameters` (the source indents the entries). -/
def buildSignatureParameters (nm : Names) (method : Method) : List String :=
  indentLines (signatureParameterEntries nm method)

/-- Embedding of `buildSignature`: four branches over return type presence
and parameter-list emptiness. -/
def buildSignature (nm : Names) (method : Method) : List String :=
  match method.returnType with
  | some rt =>
    let typeName := nm.typeNameOfReturn rt
    if method.parameters.length ≠ 0 then
      rubyBlock "sig do"
        (["override.params("] ++ buildSignatureParameters nm method ++
          [").returns("] ++ indentLines [typeName] ++ [")"])
    else ["sig \x7b override.returns(" ++ typeName ++ ") \x7d"]
  | none =>
    if method.parameters.length ≠ 0 then
      rubyBlock "sig do"
        (["override.params("] ++ buildSignatureParameters nm method ++ [").void"])
    else ["sig \x7b override.void \x7d"]

/-- The `paramsByName` map built identically at the top of `buildUri`,
`buildQuery`, `buildHeaders` and `buildBody`: parameter name mapped to the
parameter and its resolved HTTP binding. -/
def paramsByName (service : Service) (method : Method) :
    List (String × (Parameter × Option HttpParameter)) :=
  jsMapOf (method.parameters.map
    (fun p => (p.name, (p, getHttpParameter service method.name p.name))))

/-- Embedding of the `getParamName` closure in `buildUri`: a `:name` segment
or a `\x7bname\x7d` segment yields the placeholder name. -/
def getParamName (seg : String) : Option String :=
  match seg.data with
  | [] => none
  | c :: rest =>
    if c = ':' then some (String.mk rest)
    else if c = lbrace ∧ rest.getLast? = some rbrace then
      some (String.mk rest.dropLast)
    else none

/-- Per-segment substitution in `buildUri`.  An empty placeholder name is
falsy in JavaScript (`if (!paramName) return seg`), so a bare ":" segment
stays literal; a segment is substituted only when the named parameter exists
and resolves to location `path`. -/
def substSegment (nm : Names) (service : Service) (method : Method)
    (seg : String) : String :=
  match getParamName seg with
  | none => seg
  | some pname =>
    if pname == "" then seg
    else
      match jsMapGet (paramsByName service method) pname with
      | none => seg
      | some (p, hp?) =>
        match hp? with
        | none => seg
        | some hp =>
          if hp.location == "path" then
            "#\x7b" ++ nm.parameterName p ++ "\x7d"
          else seg

/-- Embedding of `buildUri`: base root interpolation, `/v` plus the major
version, then the path template with per-segment substitution. -/
def buildUri (nm : Names) (service : Service) (httpPath : HttpPath)
    (method : Method) : String :=
  let subpath :=
    String.intercalate "/"
      ((splitSlash httpPath.path).map (substSegment nm service method))
  "#\x7b@" ++ apiRoot ++ "\x7d/v" ++ toString service.majorVersion ++ subpath

/-- The second map built in `buildQuery`: the entries of `paramsByName` whose
binding resolved to location `query`, keyed by the declared parameter name. -/
def queryEntries (service : Service) (method : Method) :
    List (String × Parameter) :=
  (paramsByName service method).filterMap
    (fun e =>
      match e.2.2 with
      | none => none
      | some hp =>
        if hp.location == "query" then some (e.1, e.2.1) else none)

/-- Embedding of `buildQuery`: when any parameter is bound to `query`, emit
the `URI.encode_www_form` call over a hash literal keyed by parameter name,
compacted with `.compact`. -/
def buildQuery (nm : Names) (service : Service) (method : Method) :
    List String :=
  let m := queryEntries service method
  if m.length ≠ 0 then
    [uriVar ++ ".query = URI.encode_www_form("] ++
      indentLines
        (["\x7b"] ++
          indentLines
            (m.map (fun e => "'" ++ e.1 ++ "': " ++ nm.parameterName e.2 ++ ",")) ++
          ["\x7d.compact"]) ++
      [")"]
  else []

/-- Embedding of `buildHeaders`: header-bound API-key security schemes first,
then every parameter whose binding resolved to location `header` (these use
the HttpParameter's wire name). -/
def buildHeaders (nm : Names) (service : Service) (method : Method) :
    List String :=
  let schemes := method.security.flatMap (fun s => s)
  schemes.filterMap
      (fun s =>
        if s.kind == "apiKey" && s.location == "header" then
          some (reqVar ++ "['" ++ s.parameter ++ "'] = @" ++ snake s.name)
        else none) ++
    (paramsByName service method).filterMap
      (fun e =>
        match e.2.2 with
        | none => none
        | some hp =>
          if hp.location == "header" then
            some (reqVar ++ "['" ++ hp.name ++ "'] = " ++ nm.parameterName e.2.1)
          else none)

/-- Embedding of `buildBody`: the parameter bound to `body` is converted with
the generated domain-to-wire mapper and serialized; optional parameters guard
the assignment with a nil check. -/
def buildBody (nm : Names) (service : Service) (method : Method) :
    List String :=
  (paramsByName service method).filterMap
    (fun e =>
      match e.2.2 with
      | none => none
      | some hp =>
        if hp.location == "body" then
          some (reqVar ++ ".body = map_" ++ snake e.2.1.typeName ++ "_to_dto(" ++
            nm.parameterName e.2.1 ++ ").to_s" ++
            (if e.2.1.required then ""
             else " if !" ++ nm.parameterName e.2.1 ++ ".nil?"))
        else none)

/-- Embedding of `buildReturn`: parse the response body and convert it with
the wire-to-domain mapper of the declared return type, if any. -/
def buildReturn (method : Method) : List String :=
  match method.returnType with
  | some rt =>
    ["map_dto_to_" ++ snake rt.typeName ++ "(JSON.parse(" ++ resVar ++ ".body))"]
  | none => []

/-- The parenthesized parameter list of the generated operation definition:
sorted parameters as keyword arguments, optional ones defaulted to nil. -/
def definitionParameterList (nm : Names) (method : Method) : String :=
  if method.parameters.length ≠ 0 then
    "(" ++
      String.intercalate ", "
        ((sortParameters method.parameters).map
          (fun p => nm.parameterName p ++ ":" ++ (if p.required then "" else " nil"))) ++
      ")"
  else ""

/-- Embedding of `buildDefinition`: nothing at all when `getHttp` resolves no
binding for the method's name; otherwise the full operation body. -/
def buildDefinition (nm : Names) (service : Service) (method : Method) :
    List String :=
  match getHttp service method.name with
  | none => []
  | some (httpMethod, httpPath) =>
    rubyBlock ("def " ++ nm.methodName method ++ definitionParameterList nm method)
      ([uriVar ++ " = URI(\"" ++ buildUri nm service httpPath method ++ "\")"] ++
        buildQuery nm service method ++
        [reqVar ++ " = Net::HTTP::" ++ pascal httpMethod.verb ++ ".new(" ++ uriVar ++ ")"] ++
        buildHeaders nm service method ++
        buildBody nm service method ++
        [(if method.returnType.isSome then resVar ++ " = " else "") ++
          "Net::HTTP.start(" ++ uriVar ++ ".hostname, " ++ uriVar ++
          ".port) \x7b |http| http.request(" ++ reqVar ++ ") \x7d"] ++
        buildReturn method)

/-- The deduplicated security-scheme credential names of an interface, in
first-seen order (`Array.from(new Set(...))`). -/
def initializerNames (int : Interface) : List String :=
  dedupFirst
    (int.methods.flatMap
      (fun m => (m.security.flatMap (fun s => s)).map (fun o => snake o.name)))

/-- Embedding of `buildInitializer`: the sig line and the initializer taking
the api root plus one credential per distinct scheme name. -/
def buildInitializer (int : Interface) : List String :=
  let names := initializerNames int
  ["sig \x7b params(" ++ apiRoot ++ ": String" ++
      (if names.length ≠ 0 then ", " else "") ++
      String.intercalate ", " (names.map (fun n => n ++ ": String")) ++
      ").void \x7d"] ++
    rubyBlock
      ("def initialize(" ++ apiRoot ++ ":" ++
        (if names.length ≠ 0 then ", " else "") ++
        String.intercalate ", " (names.map (fun n => n ++ ":")) ++ ")")
      (("@" ++ apiRoot ++ " = " ++ apiRoot) ::
        names.map (fun n => "@" ++ n ++ " = " ++ n))

/-- Stable insertion for the lexicographic method sort. -/
def insertMethod (x : Method) : List Method → List Method
  | [] => [x]
  | y :: ys => if x.name ≤ y.name then x :: y :: ys else y :: insertMethod x ys

/-- Model of `[...int.methods].sort((a, b) => a.name.value.localeCompare(b.name.value))`;
`localeCompare` is modelled as code-point lexicographic comparison. -/
def sortMethodsByName : List Method → List Method
  | [] => []
  | x :: xs => insertMethod x (sortMethodsByName xs)

/-- The source's `buildMapperName()`: the pascal-cased helpers module name. -/
def mapperName : String := pascal "HttpClientHelpers"

/-- The per-method chunk of the client class body: blank line, description
comment, signature and (when the binding resolves) definition. -/
def methodSection (nm : Names) (service : Service) (method : Method) :
    List String :=
  [""] ++ commentLines method.description ++ buildSignature nm method ++
    buildDefinition nm service method

/-- Embedding of `buildClient`: the full line stream of one client file. -/
def buildClient (nm : Names) (service : Service) (options : Option Options)
    (int : Interface) : List String :=
  let methods := sortMethodsByName int.methods
  [nm.warningText, ""] ++ magicCommentLines options ++
    ["# typed: strict", ""] ++ fileIncludeLines options ++
    commentLines int.description ++
    rubyBlock ("module " ++ nm.interfaceNamespace)
      (rubyBlock ("class " ++ pascal int.name ++ "HttpClient")
        (["extend T::Sig", "",
          "include " ++ nm.interfaceNamespace ++ "::" ++ nm.interfaceName int,
          "include " ++ nm.ns none ++ "::" ++ mapperName, ""] ++
          buildInitializer int ++
          methods.flatMap (methodSection nm service))) ++
    [""]

/-! ## File paths (src/name-factory.ts) -/

/-- Embedding of `libFolder`: the configured lib path split on the path
separator (modelled as "/", the platform separator here) with empty, "." and
".." segments removed; defaults to app/lib. -/
def libFolder (options : Option Options) : List String :=
  match libOf options with
  | none => ["app", "lib"]
  | some lib =>
    (splitSlash lib).filter (fun x => x ≠ "" && x ≠ "." && x ≠ "..")

/-- Embedding of `buildClientName`. -/
def buildClientName (int : Interface) : String :=
  pascal (int.name ++ "_http_client")

/-- Embedding of `buildClientNamespace`. -/
def buildClientNamespace (nm : Names) (options : Option Options) : String :=
  nm.ns (interfacesModuleOf options)

/-- Embedding of `buildClientFilepath`. -/
def buildClientFilepath (nm : Names) (options : Option Options)
    (int : Interface) : List String :=
  libFolder options ++
    (splitNamespace (buildClientNamespace nm options)).map snake ++
    [snake (buildClientName int) ++ ".rb"]

/-- Embedding of `buildMapperNamespace` (always the plain namespace). -/
def buildMapperNamespace (nm : Names) : String := nm.ns none

/-- Embedding of `buildMapperFilepath`. -/
def buildMapperFilepath (nm : Names) (options : Option Options) : List String :=
  libFolder options ++ (splitNamespace (buildMapperNamespace nm)).map snake ++
    [snake mapperName ++ ".rb"]

/-- One generated artifact: output path segments and full text. -/
structure GeneratedFile where
  path : List String
  contents : String
deriving DecidableEq, Repr

/-- Embedding of the client factory's `buildClientFile`. -/
def buildClientFile (nm : Names) (service : Service) (options : Option Options)
    (int : Interface) : GeneratedFile :=
  { path := buildClientFilepath nm options int
    contents := fromLines (buildClient nm service options int) }

/-- Embedding of `generateClients` (the client `Builder.build`): one client
file per interface. -/
def generateClients (nm : Names) (service : Service)
    (options : Option Options) : List GeneratedFile :=
  service.interfaces.map (buildClientFile nm service options)

/-! ## Mapper Generator (src/index.ts mapper factory) -/

/-- Embedding of `buildPrimitiveCast`: the default wire-to-domain cast table,
overridable per primitive name by the `types` option. -/
def buildPrimitiveCast (options : Option Options) (primitive : String)
    (baseCase : String) : String :=
  match typeOverride options primitive with
  | some c => c ++ "(" ++ baseCase ++ ")"
  | none =>
    match primitive with
    | "boolean" => "ActiveModel::Type::Boolean.new.cast(" ++ baseCase ++ ")"
    | "date" => "Date.parse(" ++ baseCase ++ ")"
    | "date-time" => "DateTime.parse(" ++ baseCase ++ ")"
    | "double" => "Float(" ++ baseCase ++ ")"
    | "float" => "Float(" ++ baseCase ++ ")"
    | "number" => "Float(" ++ baseCase ++ ")"
    | "integer" => "Integer(" ++ baseCase ++ ", 10)"
    | "long" => "Integer(" ++ baseCase ++ ", 10)"
    | _ => baseCase

/-- Embedding of `buildPropCast` (wire-to-domain property cast).  A
configured custom caster is applied to the stringified value; otherwise a
non-passthrough primitive cast is guarded by an `is_a?(String)` check, and a
non-primitive property delegates to the referenced type's mapper. -/
def buildPropCast (options : Option Options) (typeName : String)
    (isPrimitive : Bool) (baseCase : String) : String :=
  if isPrimitive then
    match typeOverride options typeName with
    | some c => c ++ "(" ++ baseCase ++ ".to_s)"
    | none =>
      let casted := buildPrimitiveCast options typeName baseCase
      if casted == baseCase then baseCase
      else baseCase ++ ".is_a?(String) ? " ++ casted ++ " : " ++ baseCase
  else "map_dto_to_" ++ snake typeName ++ "(" ++ baseCase ++ ")"

/-- Embedding of `buildDtoPropCast` (domain-to-wire property cast): only date
and date-time get special serialization; everything else passes through.
Note the function takes no options: the `types` override table is not
consulted in this direction. -/
def buildDtoPropCast (typeName : String) (isPrimitive : Bool)
    (baseCase : String) : String :=
  if isPrimitive then
    match typeName with
    | "date" => baseCase ++ "&.to_s"
    | "date-time" => baseCase ++ "&.utc&.iso8601"
    | _ => baseCase
  else "map_" ++ snake typeName ++ "_to_dto(" ++ baseCase ++ ")"

/-- The emitted pair of functions for one domain type: wire-to-domain
(`map_dto_to_x`) and domain-to-wire (`map_x_to_dto`), each with a
`rescue StandardError` clause returning the original argument. -/
def mapperTypeLines (nm : Names) (options : Option Options) (t : TypeDef) :
    List String :=
  ["def map_dto_to_" ++ snake t.name ++ "(dto)"] ++
    indentLines
      ([nm.fqTypeName t.name ++ ".new("] ++
        indentLines
          (t.properties.enum.map
            (fun e =>
              let comma := if e.1 < t.properties.length - 1 then "," else ""
              if e.2.isArray then
                nm.propertyName e.2 ++ ": dto['" ++ e.2.name ++
                  "']&.map \x7b |item| " ++
                  buildPropCast options e.2.typeName e.2.isPrimitive "item" ++
                  " \x7d" ++ comma
              else
                nm.propertyName e.2 ++ ": " ++
                  buildPropCast options e.2.typeName e.2.isPrimitive
                    ("dto['" ++ e.2.name ++ "']") ++ comma)) ++
        [")"]) ++
    ["rescue StandardError"] ++ indentLines ["dto"] ++ ["end"] ++
    [""] ++
    ["def map_" ++ snake t.name ++ "_to_dto(" ++ snake t.name ++ ")"] ++
    indentLines
      (["\x7b"] ++
        indentLines
          (t.properties.map
            (fun p =>
              if p.isArray then
                "'" ++ p.name ++ "': " ++ snake t.name ++ "." ++
                  nm.propertyName p ++ "&.map \x7b |item| " ++
                  buildDtoPropCast p.typeName p.isPrimitive "item" ++ " \x7d,"
              else
                "'" ++ p.name ++ "': " ++
                  buildDtoPropCast p.typeName p.isPrimitive
                    (snake t.name ++ "." ++ nm.propertyName p) ++ ",")) ++
        ["\x7d.compact"]) ++
    ["rescue StandardError"] ++ indentLines [snake t.name] ++ ["end"]

/-- The emitted pair of functions for one enum: deserialization falling back
to the original wire value, and nil-safe serialization, both with
`rescue StandardError` returning the original argument. -/
def mapperEnumLines (nm : Names) (e : EnumDef) : List String :=
  ["def map_dto_to_" ++ snake e.name ++ "(dto)"] ++
    indentLines [nm.fqTypeName e.name ++ ".deserialize(dto)"] ++
    ["rescue StandardError"] ++ indentLines ["dto"] ++ ["end"] ++
    [""] ++
    ["def map_" ++ snake e.name ++ "_to_dto(enum)"] ++
    indentLines ["enum&.serialize"] ++
    ["rescue StandardError"] ++ indentLines ["enum"] ++ ["end"]

/-- Embedding of the mapper factory's `buildMapper` line stream.  The
`castPrimitive` and `castPrimitiveArray` sets of the source are declared but
never populated, so no `cast_*` helper is ever emitted and those loops
contribute nothing. -/
def buildMapper (nm : Names) (service : Service) (options : Option Options) :
    List String :=
  [nm.warningText, ""] ++ magicCommentLines options ++
    rubyBlock ("module " ++ nm.ns none)
      (rubyBlock ("module " ++ mapperName)
        (joinBlocks
          (service.types.map (mapperTypeLines nm options) ++
            service.enums.map (mapperEnumLines nm)))) ++
    [""]

/-- Embedding of the mapper factory's `buildMapperFile`. -/
def buildMapperFile (nm : Names) (service : Service)
    (options : Option Options) : GeneratedFile :=
  { path := buildMapperFilepath nm options
    contents := fromLines (buildMapper nm service options) }

/-- Embedding of `generateMapper` (the mapper `Builder.build`): exactly the
one mapper file. -/
def generateMapper (nm : Names) (service : Service)
    (options : Option Options) : List GeneratedFile :=
  [buildMapperFile nm service options]

/-- Embedding of the default export in src/index.ts: all client files
followed by the mapper file. -/
def generator (nm : Names) (service : Service) (options : Option Options) :
    List GeneratedFile :=
  generateClients nm service options ++ generateMapper nm service options

/-! ## Semantic model of the generated Ruby code

To settle the runtime claims about the emitted mapper functions we interpret
the Ruby expressions the generator produces over a model of Ruby values.
Failure of a step (a raised exception) is modelled as `none`; the generated
`rescue StandardError` clauses then turn `none` into the original argument.
The semantic definitions below mirror, branch by branch, the expression text
produced by `buildPropCast`, `buildDtoPropCast`, `buildPrimitiveCast` and the
function bodies produced by `mapperTypeLines` / `mapperEnumLines`. -/

/-- Model of a Ruby runtime value as exchanged by the generated code. -/
inductive RVal where
  | nil
  | str (s : String)
  | int (n : Int)
  | bool (b : Bool)
  | float (repr : String)
  | date (d : String)
  | datetime (d : String)
  | arr (elems : List RVal)
  | hash (entries : List (String × RVal))
  | obj (typeName : String) (fields : List (String × RVal))
  | enumVal (serialized : String)
deriving Repr

/-- True exactly for Ruby `nil` (used to model `Hash#compact`). -/
def RVal.isNil : RVal → Bool
  | .nil => true
  | _ => false

/-- True exactly for Ruby strings (used to model `is_a?(String)`). -/
def RVal.isStr : RVal → Bool
  | .str _ => true
  | _ => false

/-- Model of Ruby `to_s` on the values the generated casts stringify.  For
composite values Ruby produces an inspect-style text; no theorem below relies
on its exact form. -/
def toS : RVal → String
  | .nil => ""
  | .str s => s
  | .int n => toString n
  | .bool b => if b then "true" else "false"
  | .float r => r
  | .date d => d
  | .datetime d => d
  | .arr _ => "[...]"
  | .hash _ => "\x7b...\x7d"
  | .obj n _ => "#<" ++ n ++ ">"
  | .enumVal s => "#<enum " ++ s ++ ">"

/-- Base-10 integer text: optional sign followed by at least one digit.
Ruby's `Integer(s, 10)` also tolerates surrounding whitespace and embedded
underscores; those richer forms are not modelled. -/
def parseIntBase10 (s : String) : Option Int :=
  let core (ds : List Char) (sign : Int) : Option Int :=
    if ds ≠ [] && ds.all Char.isDigit then
      some (sign * (ds.foldl (fun n c => n * 10 + (c.toNat - '0'.toNat)) 0 : Nat))
    else none
  match s.data with
  | '-' :: ds => core ds (-1)
  | '+' :: ds => core ds 1
  | ds => core ds 1

/-- Model of Ruby `Integer(v, 10)`: parses base-10 text, raises on anything
else (with an explicit base even an Integer argument raises). -/
def integerSem : RVal → Option RVal
  | .str s => (parseIntBase10 s).map RVal.int
  | _ => none

/-- Simple decimal-number shape used to model `Float(v)` on strings. -/
def floatTextOk (s : String) : Bool :=
  let body := if s.startsWith "-" then s.drop 1 else s
  match body.splitOn "." with
  | [a] => a ≠ "" && a.data.all Char.isDigit
  | [a, b] => a ≠ "" && b ≠ "" && a.data.all Char.isDigit && b.data.all Char.isDigit
  | _ => false

/-- Model of Ruby `Float(v)`: numeric values convert, numeric text parses
(the payload keeps the source text; no theorem relies on float arithmetic),
anything else raises. -/
def floatSem : RVal → Option RVal
  | .str s => if floatTextOk s then some (.float s) else none
  | .int n => some (.float (toString n))
  | .float r => some (.float r)
  | _ => none

/-- Falsy textual forms of `ActiveModel::Type::Boolean`. -/
def falseyText : List String :=
  ["0", "f", "F", "false", "FALSE", "off", "OFF"]

/-- Model of `ActiveModel::Type::Boolean.new.cast`: nil and the empty string
cast to nil, the listed falsy forms to false, everything else to true. -/
def boolCastSem : RVal → Option RVal
  | .nil => some .nil
  | .str s =>
    if s = "" then some .nil
    else some (.bool (!falseyText.contains s))
  | .bool b => some (.bool b)
  | .int n => some (.bool (n ≠ 0))
  | _ => some (.bool true)

/-- Calendar-date text `YYYY-MM-DD` (all digits).  Ruby's `Date.parse`
accepts many more forms; the model covers the canonical one. -/
def dateTextOk (s : String) : Bool :=
  match s.splitOn "-" with
  | [y, m, d] =>
    y.length == 4 && m.length == 2 && d.length == 2 &&
      y.data.all Char.isDigit && m.data.all Char.isDigit && d.data.all Char.isDigit
  | _ => false

/-- Model of Ruby `Date.parse`: parses canonical calendar-date text from a
string, raises otherwise. -/
def dateParseSem : RVal → Option RVal
  | .str s => if dateTextOk s then some (.date s) else none
  | _ => none

/-- Model of Ruby `DateTime.parse`: any nonempty string with a date prefix is
accepted as a timestamp; non-strings raise. -/
def dateTimeParseSem : RVal → Option RVal
  | .str s => if s.length ≥ 10 && dateTextOk (s.take 10) then some (.datetime s) else none
  | _ => none

/-- Semantic environment for user-configured custom casters: maps a caster
identifier to the runtime function it names (`none` models the caster
raising). -/
def Casters : Type := String → RVal → Option RVal

/-- Runtime semantics of the expression emitted by `buildPrimitiveCast`
applied to a value.  The branches correspond one to one to the emitted
texts. -/
def primCastSem (options : Option Options) (cs : Casters) (primitive : String)
    (v : RVal) : Option RVal :=
  match typeOverride options primitive with
  | some c => cs c v
  | none =>
    match primitive with
    | "boolean" => boolCastSem v
    | "date" => dateParseSem v
    | "date-time" => dateTimeParseSem v
    | "double" => floatSem v
    | "float" => floatSem v
    | "number" => floatSem v
    | "integer" => integerSem v
    | "long" => integerSem v
    | _ => some v

/-- The branch test `casted === baseCase` of `buildPropCast`, evaluated on a
representative base expression (the comparison's outcome does not depend on
the base text: every non-default cast strictly extends it). -/
def primPassthrough (options : Option Options) (primitive : String) : Bool :=
  buildPrimitiveCast options primitive "param" == "param"

/-- Runtime semantics of the expression emitted by `buildPropCast`, with the
semantics of `map_dto_to_*` calls supplied as `recur` (keyed by the referenced
type name).  With a configured caster the emitted text is
`caster(base.to_s)`: the value is stringified unconditionally.  Without one,
a passthrough primitive emits the bare base expression, and any other
primitive is guarded by `is_a?(String)`. -/
def castDtoPropWith (recur : String → RVal → Option RVal)
    (options : Option Options) (cs : Casters) (typeName : String)
    (isPrimitive : Bool) (v : RVal) : Option RVal :=
  if isPrimitive then
    match typeOverride options typeName with
    | some c => cs c (.str (toS v))
    | none =>
      if primPassthrough options typeName then some v
      else
        match v with
        | .str s => primCastSem options cs typeName (.str s)
        | _ => some v
  else recur typeName v

/-- Model of Ruby subscript `receiver['key']` as used on the wire value: a
Hash returns the entry's value or nil, nil and most non-Hash receivers raise
(NoMethodError / TypeError).  Ruby String receivers return a substring match
instead; that special case is not modelled and no theorem relies on it. -/
def hashGet : RVal → String → Option RVal
  | .hash entries, k => some ((entries.lookup k).getD .nil)
  | _, _ => none

/-- Model of Ruby attribute read `receiver.field` on a generated domain
struct: present fields read their value, anything else raises. -/
def fieldGet : RVal → String → Option RVal
  | .obj _ fields, k =>
    match fields.lookup k with
    | some v => some v
    | none => none
  | _, _ => none

/-- Apply a fallible cast to every element, failing if any element fails
(model of `map` over a Ruby block whose body may raise). -/
def castAll (f : RVal → Option RVal) : List RVal → Option (List RVal)
  | [] => some []
  | v :: vs =>
    match f v, castAll f vs with
    | some w, some ws => some (w :: ws)
    | _, _ => none

/-- Wire-to-domain evaluation of the keyword arguments of the emitted
`Struct.new(...)` call, property by property in declaration order:
`dto['name']&.map` for array properties, the property cast otherwise.  Any
raising step aborts the whole construction. -/
def dtoFieldsWith (recur : String → RVal → Option RVal) (nm : Names)
    (options : Option Options) (cs : Casters) (dto : RVal) :
    List Property → Option (List (String × RVal))
  | [] => some []
  | p :: ps =>
    let castItem := castDtoPropWith recur options cs p.typeName p.isPrimitive
    let value :=
      if p.isArray then
        match hashGet dto p.name with
        | none => none
        | some .nil => some .nil
        | some (.arr elems) => (castAll castItem elems).map RVal.arr
        | some _ => none
      else
        match hashGet dto p.name with
        | none => none
        | some raw => castItem raw
    match value, dtoFieldsWith recur nm options cs dto ps with
    | some v, some rest => some ((nm.propertyName p, v) :: rest)
    | _, _ => none

/-- Wire-to-domain body of `map_dto_to_x` before the rescue clause: the
constructed domain instance, or `none` when any step raised.  The runtime
type validation of the Sorbet struct initializer is not modelled separately:
it can only raise, and every raise is already covered by the rescue. -/
def dtoToTypeBodyWith (recur : String → RVal → Option RVal) (nm : Names)
    (options : Option Options) (cs : Casters) (t : TypeDef) (dto : RVal) :
    Option RVal :=
  (dtoFieldsWith recur nm options cs dto t.properties).map (RVal.obj t.name)

/-- Runtime semantics of the expression emitted by `buildDtoPropCast`:
nil-safe date/date-time serialization, passthrough for other primitives,
delegation to `map_*_to_dto` for references. -/
def dtoCastWith (recur : String → RVal → Option RVal) (typeName : String)
    (isPrimitive : Bool) (v : RVal) : Option RVal :=
  if isPrimitive then
    match typeName with
    | "date" =>
      match v with
      | .nil => some .nil
      | _ => some (.str (toS v))
    | "date-time" =>
      match v with
      | .nil => some .nil
      | .datetime d => some (.str d)
      | _ => none
    | _ => some v
  else recur typeName v

/-- Domain-to-wire evaluation of the emitted hash literal's entries, keyed by
the declared wire property names. -/
def toDtoEntriesWith (recur : String → RVal → Option RVal) (nm : Names)
    (x : RVal) : List Property → Option (List (String × RVal))
  | [] => some []
  | p :: ps =>
    let castItem := dtoCastWith recur p.typeName p.isPrimitive
    let value :=
      if p.isArray then
        match fieldGet x (nm.propertyName p) with
        | none => none
        | some .nil => some .nil
        | some (.arr elems) => (castAll castItem elems).map RVal.arr
        | some _ => none
      else
        match fieldGet x (nm.propertyName p) with
        | none => none
        | some raw => castItem raw
    match value, toDtoEntriesWith recur nm x ps with
    | some v, some rest => some ((p.name, v) :: rest)
    | _, _ => none

/-- Model of `Hash#compact`: drop the entries whose value is nil. -/
def compactHash (entries : List (String × RVal)) : List (String × RVal) :=
  entries.filter (fun e => !e.2.isNil)

/-- Domain-to-wire body of `map_x_to_dto` before the rescue clause: the
compacted hash, or `none` when any step raised. -/
def typeToDtoBodyWith (recur : String → RVal → Option RVal) (nm : Names)
    (t : TypeDef) (x : RVal) : Option RVal :=
  (toDtoEntriesWith recur nm x t.properties).map
    (fun entries => RVal.hash (compactHash entries))

/-- Model of `T::Enum.deserialize` from the external sorbet-runtime package:
returns the member whose serialized value equals the wire value and raises a
KeyError otherwise. -/
def enumDeserialize (e : EnumDef) (v : RVal) : Option RVal :=
  match v with
  | .str s => if e.members.contains s then some (.enumVal s) else none
  | _ => none

/-- Runtime semantics of the emitted `map_dto_to_<enum>` function:
deserialization with the rescue clause returning the original wire value. -/
def mapDtoToEnum (e : EnumDef) (v : RVal) : RVal :=
  (enumDeserialize e v).getD v

/-- Runtime semantics of `enum&.serialize`: nil passes through, an enum value
serializes, any other receiver raises NoMethodError. -/
def enumSerialize : RVal → Option RVal
  | .nil => some .nil
  | .enumVal s => some (.str s)
  | _ => none

/-- Runtime semantics of the emitted `map_<enum>_to_dto` function with its
rescue clause. -/
def mapEnumToDto (v : RVal) : RVal :=
  (enumSerialize v).getD v

/-- The generated mapper module defines `map_dto_to_<snake name>` /
`map_<snake name>_to_dto` for every type and then every enum; in Ruby a later
definition with the same name silently replaces an earlier one, so dispatch
searches the reversed declaration list. -/
def findMapperTarget (service : Service) (typeName : String) :
    Option (TypeDef ⊕ EnumDef) :=
  ((service.types.map Sum.inl) ++ (service.enums.map Sum.inr)).reverse.find?
    (fun d =>
      (match d with
       | Sum.inl t => snake t.name
       | Sum.inr e => snake e.name) == snake typeName)

/-- Runtime semantics of a call `map_dto_to_<snake typeName>(v)`: dispatch to
the generated function for the referenced type or enum, `none` when no such
method exists (NoMethodError at the call site).  The fuel bounds the
recursion depth through mutually referencing types; every claim below is
settled at an explicit sufficient fuel. -/
def mapDtoToNamedSem (nm : Names) (service : Service)
    (options : Option Options) (cs : Casters) :
    Nat → String → RVal → Option RVal
  | 0, _, _ => none
  | fuel + 1, typeName, v =>
    match findMapperTarget service typeName with
    | some (Sum.inl t) =>
      some ((dtoToTypeBodyWith (mapDtoToNamedSem nm service options cs fuel)
          nm options cs t v).getD v)
    | some (Sum.inr e) => some (mapDtoToEnum e v)
    | none => none

/-- Wire-to-domain body of `map_dto_to_x` at a given recursion budget. -/
def dtoToTypeBody (nm : Names) (service : Service) (options : Option Options)
    (cs : Casters) (fuel : Nat) (t : TypeDef) (dto : RVal) : Option RVal :=
  dtoToTypeBodyWith (mapDtoToNamedSem nm service options cs fuel)
    nm options cs t dto

/-- Runtime semantics of the emitted `map_dto_to_x` function: the body with
its rescue clause returning the original wire value on any failure. -/
def mapDtoToType (nm : Names) (service : Service) (options : Option Options)
    (cs : Casters) (fuel : Nat) (t : TypeDef) (dto : RVal) : RVal :=
  (dtoToTypeBody nm service options cs fuel t dto).getD dto

/-- Runtime semantics of a call `map_<snake typeName>_to_dto(v)`. -/
def mapNamedToDtoSem (nm : Names) (service : Service)
    (options : Option Options) (cs : Casters) :
    Nat → String → RVal → Option RVal
  | 0, _, _ => none
  | fuel + 1, typeName, v =>
    match findMapperTarget service typeName with
    | some (Sum.inl t) =>
      some ((typeToDtoBodyWith (mapNamedToDtoSem nm service options cs fuel)
          nm t v).getD v)
    | some (Sum.inr _) => some (mapEnumToDto v)
    | none => none

/-- Domain-to-wire body of `map_x_to_dto` at a given recursion budget. -/
def typeToDtoBody (nm : Names) (service : Service) (options : Option Options)
    (cs : Casters) (fuel : Nat) (t : TypeDef) (x : RVal) : Option RVal :=
  typeToDtoBodyWith (mapNamedToDtoSem nm service options cs fuel) nm t x

/-- Runtime semantics of the emitted `map_x_to_dto` function with its rescue
clause returning the original domain value on any failure. -/
def mapTypeToDto (nm : Names) (service : Service) (options : Option Options)
    (cs : Casters) (fuel : Nat) (t : TypeDef) (x : RVal) : RVal :=
  (typeToDtoBody nm service options cs fuel t x).getD x

/-- Runtime semantics of the query hash emitted by `buildQuery` under an
environment giving each parameter's runtime value: the `.compact` call drops
nil-valued entries before `URI.encode_www_form`. -/
def querySem (entries : List (String × Parameter)) (env : Parameter → RVal) :
    List (String × RVal) :=
  (entries.map (fun e => (e.1, env e.2))).filter (fun e => !e.2.isNil)

/-! ## Spec-side definitions used as refinement targets

These definitions follow the wording of the specification (not the source)
and are compared against the source-derived definitions by the refinement
theorems below. -/

/-- Definition following the spec's words: required parameters first, in
original declaration order, followed by optional parameters in original
declaration order. -/
def specSortedParameters (ps : List Parameter) : List Parameter :=
  ps.filter (fun p => p.required) ++ ps.filter (fun p => !p.required)

/-- Definition following the spec's words for the signature parameter list:
the spec ordering with each optional parameter's type wrapped as nilable. -/
def specSignatureParameterEntries (nm : Names) (method : Method) : List String :=
  (specSortedParameters method.parameters).enum.map
    (fun e =>
      let comma := if e.1 == method.parameters.length - 1 then "" else ","
      let typeName := nm.typeNameOfParam e.2
      let nilableTypeName :=
        if e.2.required then typeName else "T.nilable(" ++ typeName ++ ")"
      nm.parameterName e.2 ++ ": " ++ nilableTypeName ++ comma)

/-- Definition following the spec's words for the definition's keyword
parameter list: the spec ordering, optional parameters defaulted to nil. -/
def specDefinitionParameterList (nm : Names) (method : Method) : String :=
  if method.parameters.length ≠ 0 then
    "(" ++
      String.intercalate ", "
        ((specSortedParameters method.parameters).map
          (fun p => nm.parameterName p ++ ":" ++ (if p.required then "" else " nil"))) ++
      ")"
  else ""

/-- Definition following the spec's words for one URI segment: a `:name` or
braced placeholder segment naming a declared method parameter that resolves
to location `path` is replaced by that parameter's runtime interpolation;
every other segment is kept as literal text. -/
def specSubstSegment (nm : Names) (service : Service) (method : Method)
    (seg : String) : String :=
  match getParamName seg with
  | none => seg
  | some pname =>
    match method.parameters.find? (fun p => p.name == pname) with
    | none => seg
    | some p =>
      match getHttpParameter service method.name p.name with
      | none => seg
      | some hp =>
        if hp.location == "path" then "#\x7b" ++ nm.parameterName p ++ "\x7d"
        else seg

/-- Definition following the spec's words for the full URI: base root, `/v`
plus the major version, then the substituted path template. -/
def specUri (nm : Names) (service : Service) (httpPath : HttpPath)
    (method : Method) : String :=
  "#\x7b@" ++ apiRoot ++ "\x7d/v" ++ toString service.majorVersion ++
    String.intercalate "/"
      ((splitSlash httpPath.path).map (specSubstSegment nm service method))

/-! ## Concrete fixtures for witnesses and counterexamples -/

/-- A concrete instance of the external name helpers, with the conventional
behavior of the @basketry/sorbet name factory. -/
def nmX : Names :=
  { typeNameOfParam := fun p => pascal p.typeName
    typeNameOfReturn := fun r => pascal r.typeName
    fqTypeName := fun n => "Kit::" ++ pascal n
    parameterName := fun p => snake p.name
    methodName := fun m => snake m.name
    propertyName := fun p => snake p.name
    interfaceName := fun i => pascal i.name ++ "Service"
    interfaceNamespace := "Kit"
    ns := fun o => match o with | some s => s | none => "Kit"
    warningText := "# generated" }

/-- Caster environment with no usable custom casters (every call raises). -/
def cs0 : Casters := fun _ _ => none

/-- Caster environment where every custom caster is the identity function. -/
def csId : Casters := fun _ v => some v

/-- C1 fixture: an HttpParameter whose wire name differs in casing from the
declared parameter name. -/
def hp1 : HttpParameter := { name := "foo_bar", location := "query" }

/-- C1 fixture: the declared parameter. -/
def p1 : Parameter := { name := "fooBar", typeName := "string" }

/-- C1 fixture: the method. -/
def m1 : Method := { name := "getThing", parameters := [p1] }

/-- C1 fixture: the service with the query binding. -/
def svc1 : Service :=
  { majorVersion := 1, paramBindings := [("getThing", some hp1)] }

/-- C2 fixture: a method with no operation binding anywhere. -/
def m2 : Method := { name := "orphan" }

/-- C2 fixture: its interface. -/
def int2 : Interface := { name := "widgets", methods := [m2] }

/-- C2 fixture: a service with no HTTP paths at all. -/
def svc2 : Service := { majorVersion := 1, interfaces := [int2] }

/-- C3 fixture: a type with one integer property. -/
def t3 : TypeDef :=
  { name := "widget", properties := [{ name := "count", typeName := "integer" }] }

/-- C3 fixture: an enum with two members. -/
def e3 : EnumDef := { name := "color", members := ["red", "blue"] }

/-- C3 fixture: the service carrying both. -/
def svc3 : Service := { majorVersion := 1, types := [t3], enums := [e3] }

/-- C3 fixture: a wire hash whose integer field holds unparseable text, so
the integer cast raises. -/
def dto3 : RVal := .hash [("count", .str "abc")]

/-- C4/C7 fixture: options configuring a custom caster for `integer`. -/
def opts4 : Option Options :=
  some { sorbet := some { types := [("integer", "my_cast")] } }

/-- C6 fixture: the path parameter. -/
def p6 : Parameter := { name := "id", typeName := "string" }

/-- C6 fixture: the method. -/
def m6 : Method := { name := "getWidget", parameters := [p6] }

/-- C6 fixture: the bound path template. -/
def hpPath6 : HttpPath :=
  { path := "/widgets/:id", methods := [{ name := "getWidget", verb := "get" }] }

/-- C6 fixture: the service with the path binding for `id`. -/
def svc6 : Service :=
  { majorVersion := 1, httpPaths := [hpPath6]
    paramBindings := [("getWidget", some { name := "id", location := "path" })] }

/-- C8 fixture: two primitive properties with coinciding wire and domain
forms, paired with domain values. -/
def pvs8 : List (Property × RVal) :=
  [({ name := "id", typeName := "string" }, .str "a1"),
   ({ name := "count", typeName := "integer" }, .int 3)]

/-- C8 fixture: the type whose properties are exactly those of `pvs8`. -/
def t8 : TypeDef := { name := "widget", properties := pvs8.map Prod.fst }

/-- C8 fixture: a service carrying the type. -/
def svc8 : Service := { majorVersion := 1, types := [t8] }

/-- C10 fixture: two HTTP paths binding method names that differ only in
casing, so they normalize to the same lookup key. -/
def svc10 : Service :=
  { majorVersion := 1
    httpPaths :=
      [{ path := "/a", methods := [{ name := "fooBar", verb := "get" }] },
       { path := "/b", methods := [{ name := "FooBar", verb := "post" }] }] }


/-! ## Helper lemmas -/

theorem lookup_cons_ite {α : Type} (k0 : String) (v0 : α) (xs : List (String × α)) (q : String) :
    List.lookup q ((k0, v0) :: xs) = if q = k0 then some v0 else List.lookup q xs := by
  by_cases h : q = k0
  · subst h; simp [List.lookup_cons]
  · simp [List.lookup_cons, beq_eq_false_iff_ne.mpr h, h]

theorem lookup_eq_none_of_keys_ne {α : Type} (m : List (String × α)) (k : String)
    (h : ∀ e ∈ m, e.1 ≠ k) : List.lookup k m = none := by
  induction m with
  | nil => simp
  | cons x xs ih =>
    rcases x with ⟨k0, v0⟩
    rw [lookup_cons_ite]
    rw [if_neg (fun hq => h (k0, v0) (by simp) (by simp [hq.symm]))]
    exact ih (fun e he => h e (by simp [he]))

theorem lookup_map_replace_ne {α : Type} (m : List (String × α)) (k : String)
    (v : α) (q : String) (h : q ≠ k) :
    List.lookup q (m.map (fun e => if e.1 = k then (k, v) else e)) =
      List.lookup q m := by
  induction m with
  | nil => simp
  | cons x xs ih =>
    rcases x with ⟨k0, v0⟩
    simp only [List.map_cons, beq_iff_eq]
    by_cases h0 : k0 = k
    · rw [if_pos h0, lookup_cons_ite, lookup_cons_ite, if_neg h, if_neg (h0 ▸ h), ih]
    · rw [if_neg h0, lookup_cons_ite, lookup_cons_ite, ih]

theorem lookup_map_replace_eq {α : Type} (m : List (String × α)) (k : String)
    (v : α) (h : m.any (fun e => e.1 == k) = true) :
    List.lookup k (m.map (fun e => if e.1 = k then (k, v) else e)) = some v := by
  induction m with
  | nil => simp at h
  | cons x xs ih =>
    rcases x with ⟨k0, v0⟩
    simp only [List.map_cons, beq_iff_eq]
    by_cases h0 : k0 = k
    · rw [if_pos h0, lookup_cons_ite, if_pos rfl]
    · rw [if_neg h0, lookup_cons_ite, if_neg (fun hq => h0 hq.symm)]
      exact ih (by simpa [beq_iff_eq, h0] using h)

theorem jsMapGet_jsMapSet {α : Type} (m : List (String × α)) (k : String)
    (v : α) (q : String) :
    jsMapGet (jsMapSet m k v) q = if q = k then some v else jsMapGet m q := by
  unfold jsMapGet jsMapSet
  by_cases hany : m.any (fun e => e.1 == k) = true
  · rw [if_pos hany]
    simp only [beq_iff_eq]
    by_cases hq : q = k
    · subst hq; rw [if_pos rfl]; exact lookup_map_replace_eq m q v hany
    · rw [if_neg hq]; exact lookup_map_replace_ne m k v q hq
  · rw [if_neg hany]
    have hkeys : ∀ e ∈ m, e.1 ≠ k := by
      intro e he hek
      exact hany (List.any_eq_true.mpr ⟨e, he, by simp [hek]⟩)
    by_cases hq : q = k
    · subst hq
      rw [if_pos rfl]
      induction m with
      | nil => simp [lookup_cons_ite]
      | cons x xs ih =>
        rcases x with ⟨k0, v0⟩
        rw [List.cons_append, lookup_cons_ite,
          if_neg (fun h0 => hkeys (k0, v0) (by simp) h0.symm)]
        exact ih (fun h => hany (by simp only [List.any_cons, h, Bool.or_true]))
          (fun e he => hkeys e (by simp [he]))
    · rw [if_neg hq]
      induction m with
      | nil => simp [lookup_cons_ite, hq]
      | cons x xs ih =>
        rcases x with ⟨k0, v0⟩
        rw [List.cons_append, lookup_cons_ite, lookup_cons_ite]
        by_cases hq0 : q = k0
        · rw [if_pos hq0, if_pos hq0]
        · rw [if_neg hq0, if_neg hq0]
          exact ih (fun h => hany (by simp only [List.any_cons, h, Bool.or_true]))
            (fun e he => hkeys e (by simp [he]))

theorem jsMapGet_foldl_set {α : Type} (l : List (String × α))
    (init : List (String × α)) (q : String) :
    jsMapGet (l.foldl (fun m e => jsMapSet m e.1 e.2) init) q =
      ((l.reverse.find? (fun e => e.1 == q)).map Prod.snd).or (jsMapGet init q) := by
  induction l generalizing init with
  | nil => simp
  | cons e l' ih =>
    rw [List.foldl_cons, ih]
    rw [List.reverse_cons, List.find?_append]
    cases hf : l'.reverse.find? (fun x => x.1 == q) with
    | some x => simp [hf]
    | none =>
      rw [jsMapGet_jsMapSet]
      by_cases hq : q = e.1
      · subst hq; simp [hf, List.find?_cons]
      · have h1 : (e.1 == q) = false := beq_eq_false_iff_ne.mpr (Ne.symm hq)
        simp [hf, List.find?_cons, h1, hq]

theorem foldl_set_append {α : Type} (l init : List (String × α))
    (hnodup : (l.map Prod.fst).Nodup)
    (hdisj : ∀ e ∈ l, ∀ x ∈ init, x.1 ≠ e.1) :
    l.foldl (fun m e => jsMapSet m e.1 e.2) init = init ++ l := by
  induction l generalizing init with
  | nil => simp
  | cons e l' ih =>
    have hset : jsMapSet init e.1 e.2 = init ++ [e] := by
      unfold jsMapSet
      rw [if_neg, Prod.mk.eta]
      intro hx
      rcases List.any_eq_true.mp hx with ⟨x, hxm, hxk⟩
      exact hdisj e (by simp) x hxm (by simpa using hxk)
    rw [List.foldl_cons, hset, ih (init ++ [e])
      (by simpa using (List.nodup_cons.mp (by simpa using hnodup)).2)]
    · simp
    · intro y hy x hx
      rcases List.mem_append.mp hx with hx | hx
      · exact hdisj y (by simp [hy]) x hx
      · have hx' : x = e := by simpa using hx
        have hne : e.1 ∉ l'.map Prod.fst :=
          (List.nodup_cons.mp (by simpa using hnodup)).1
        rw [hx']
        intro hxy
        exact hne (by rw [hxy]; exact List.mem_map.mpr ⟨y, hy, rfl⟩)

theorem jsMapOf_of_nodup {α : Type} (l : List (String × α))
    (h : (l.map Prod.fst).Nodup) : jsMapOf l = l := by
  unfold jsMapOf
  rw [foldl_set_append l [] h (by intro e he x hx; simp at hx)]
  simp

theorem lookup_map_entry {β : Type} (ps : List Parameter) (f : Parameter → β)
    (k : String) :
    List.lookup k (ps.map (fun p => (p.name, f p))) =
      (ps.find? (fun p => p.name == k)).map f := by
  induction ps with
  | nil => simp
  | cons p ps ih =>
    rw [List.map_cons, lookup_cons_ite, List.find?_cons]
    by_cases h : p.name = k
    · rw [if_pos h.symm]
      simp [h]
    · rw [if_neg (fun hq => h hq.symm), ih]
      simp [beq_eq_false_iff_ne.mpr h]

theorem lookup_of_nodup_mem {α : Type} (l : List (String × α)) (k : String)
    (v : α) (hnd : (l.map Prod.fst).Nodup) (hmem : (k, v) ∈ l) :
    List.lookup k l = some v := by
  induction l with
  | nil => simp at hmem
  | cons e l' ih =>
    rcases e with ⟨k0, v0⟩
    rw [lookup_cons_ite]
    rcases List.mem_cons.mp hmem with he | he
    · rw [if_pos (congrArg Prod.fst he), Prod.mk.injEq] at *
      exact congrArg some he.2.symm ▸ rfl
    · have hk : k ≠ k0 := by
        intro h
        have : k0 ∈ l'.map Prod.fst :=
          h ▸ List.mem_map.mpr ⟨(k, v), he, rfl⟩
        exact (List.nodup_cons.mp (by simpa using hnd)).1 this
      rw [if_neg hk]
      exact ih (List.nodup_cons.mp (by simpa using hnd)).2 he

theorem compact_lookup (l : List (String × RVal)) (k : String) (v : RVal)
    (hnd : (l.map Prod.fst).Nodup) (hmem : (k, v) ∈ l) :
    List.lookup k (l.filter (fun e => !e.2.isNil)) =
      if v.isNil then none else some v := by
  induction l with
  | nil => simp at hmem
  | cons e l' ih =>
    rcases e with ⟨k0, v0⟩
    rw [List.map_cons] at hnd
    have hnd1 : k0 ∉ l'.map Prod.fst := (List.nodup_cons.mp hnd).1
    have hnd2 : (l'.map Prod.fst).Nodup := (List.nodup_cons.mp hnd).2
    rcases List.mem_cons.mp hmem with he | he
    · rw [Prod.mk.injEq] at he
      rcases he with ⟨hk, hv⟩
      subst hk; subst hv
      cases hn : v.isNil with
      | true =>
        rw [List.filter_cons, if_neg (by simp [hn])]
        rw [lookup_eq_none_of_keys_ne]
        · simp
        · intro x hx hxk
          exact hnd1 (hxk ▸ List.mem_map.mpr ⟨x, (List.mem_filter.mp hx).1, rfl⟩)
      | false =>
        rw [List.filter_cons, if_pos (by simp [hn]), lookup_cons_ite, if_pos rfl]
        simp
    · have hk : k ≠ k0 := by
        intro h
        exact hnd1 (h ▸ List.mem_map.mpr ⟨(k, v), he, rfl⟩)
      rw [List.filter_cons]
      by_cases h0 : (!v0.isNil) = true
      · rw [if_pos h0, lookup_cons_ite, if_neg hk]
        exact ih hnd2 he
      · rw [if_neg h0]
        exact ih hnd2 he

theorem insertParam_split (x : Parameter) :
    ∀ (as bs : List Parameter), (∀ a ∈ as, a.required = true) →
      (∀ b ∈ bs, b.required = false) →
      insertParam x (as ++ bs) =
        if x.required then x :: (as ++ bs) else as ++ x :: bs := by
  intro as
  induction as with
  | nil =>
    intro bs _ hb
    rw [List.nil_append, List.nil_append]
    cases bs with
    | nil => cases hx : x.required <;> simp [insertParam, hx]
    | cons b bs' =>
      have hbr := hb b (by simp)
      cases hx : x.required <;> simp [insertParam, sortKey, hx, hbr]
  | cons a as' ih =>
    intro bs ha hb
    have har := ha a (by simp)
    have ih' := ih bs (fun a' ha' => ha a' (by simp [ha'])) hb
    cases hx : x.required
    · rw [List.cons_append]
      simp only [insertParam, sortKey, har, hx, if_false, if_true]
      rw [if_neg (by norm_num), ih']
      simp [hx]
    · rw [List.cons_append]
      simp only [insertParam, sortKey, har, hx, if_true]
      rw [if_pos (by norm_num)]

theorem sortParameters_eq_filter (ps : List Parameter) :
    sortParameters ps =
      ps.filter (fun p => p.required) ++ ps.filter (fun p => !p.required) := by
  induction ps with
  | nil => rfl
  | cons x xs ih =>
    simp only [sortParameters, ih]
    rw [insertParam_split x _ _
      (fun a ha => (List.mem_filter.mp ha).2)
      (fun b hb => by simpa using (List.mem_filter.mp hb).2)]
    cases hx : x.required <;> simp [List.filter_cons, hx]

theorem RVal.isNil_true_iff (v : RVal) : v.isNil = true ↔ v = RVal.nil := by
  cases v <;> simp [RVal.isNil]

theorem RVal.isNil_false_iff (v : RVal) : v.isNil = false ↔ v ≠ RVal.nil := by
  cases v <;> simp [RVal.isNil]

theorem getHttp_eq_lastWins (service : Service) (n : String) :
    getHttp service n =
      ((httpEntries service).reverse.find? (fun e => e.1 == snake n)).map
        Prod.snd := by
  unfold getHttp jsMapOf
  rw [jsMapGet_foldl_set]
  simp [jsMapGet]

theorem paramsByName_of_nodup (service : Service) (method : Method)
    (h : (method.parameters.map (fun p => p.name)).Nodup) :
    paramsByName service method =
      method.parameters.map
        (fun p => (p.name, (p, getHttpParameter service method.name p.name))) := by
  unfold paramsByName
  apply jsMapOf_of_nodup
  simpa [List.map_map, Function.comp] using h

theorem paramsByName_get (service : Service) (method : Method)
    (h : (method.parameters.map (fun p => p.name)).Nodup) (key : String) :
    jsMapGet (paramsByName service method) key =
      (method.parameters.find? (fun p => p.name == key)).map
        (fun p => (p, getHttpParameter service method.name p.name)) := by
  rw [paramsByName_of_nodup service method h]
  exact lookup_map_entry method.parameters _ key

theorem find?_name_empty_eq_none (ps : List Parameter)
    (h : ∀ p ∈ ps, p.name ≠ "") :
    ps.find? (fun p => p.name == "") = none := by
  rw [List.find?_eq_none]
  intro p hp
  simpa using h p hp

theorem substSegment_eq_spec (nm : Names) (service : Service) (method : Method)
    (seg : String) (hnd : (method.parameters.map (fun p => p.name)).Nodup)
    (hne : ∀ p ∈ method.parameters, p.name ≠ "") :
    substSegment nm service method seg = specSubstSegment nm service method seg := by
  unfold substSegment specSubstSegment
  cases hg : getParamName seg with
  | none => rfl
  | some pname =>
    dsimp only
    by_cases hp : pname = ""
    · subst hp
      rw [find?_name_empty_eq_none method.parameters hne]
      simp
    · rw [paramsByName_get service method hnd]
      have hpf : (pname == "") = false := beq_eq_false_iff_ne.mpr hp
      simp only [hpf, Bool.false_eq_true, if_false]
      cases hf : method.parameters.find? (fun p => p.name == pname) with
      | none => simp
      | some p =>
        simp only [Option.map_some']

theorem buildSignature_ne_nil (nm : Names) (m : Method) :
    buildSignature nm m ≠ [] := by
  unfold buildSignature
  cases m.returnType <;> by_cases h : m.parameters.length ≠ 0 <;>
    simp [h, rubyBlock]

theorem castDtoProp_passthrough (recur : String → RVal → Option RVal)
    (options : Option Options) (cs : Casters) (name : String) (v : RVal)
    (hov : typeOverride options name = none)
    (hs : v.isStr = false ∨ primPassthrough options name = true) :
    castDtoPropWith recur options cs name true v = some v := by
  unfold castDtoPropWith
  rw [if_pos rfl]
  rw [hov]
  cases hp : primPassthrough options name with
  | true => rw [if_pos rfl]
  | false =>
    rcases hs with hs | hs
    · simp only [Bool.false_eq_true, if_false]
      cases v <;> simp_all [RVal.isStr]
    · rw [hp] at hs
      simp at hs

theorem dtoCast_passthrough (recur : String → RVal → Option RVal)
    (name : String) (v : RVal) (h1 : name ≠ "date") (h2 : name ≠ "date-time") :
    dtoCastWith recur name true v = some v := by
  unfold dtoCastWith
  rw [if_pos rfl]
  split
  · exact absurd rfl h1
  · exact absurd rfl h2
  · rfl

theorem toDtoEntries_of_fields (recur : String → RVal → Option RVal)
    (nm : Names) (x : RVal) (pvs : List (Property × RVal))
    (hall : ∀ e ∈ pvs, e.1.isPrimitive = true ∧ e.1.isArray = false ∧
      e.1.typeName ≠ "date" ∧ e.1.typeName ≠ "date-time")
    (hget : ∀ e ∈ pvs, fieldGet x (nm.propertyName e.1) = some e.2) :
    toDtoEntriesWith recur nm x (pvs.map Prod.fst) =
      some (pvs.map (fun e => (e.1.name, e.2))) := by
  induction pvs with
  | nil => rfl
  | cons e rest ih =>
    obtain ⟨hprim, harr, hd1, hd2⟩ := hall e (by simp)
    have hg := hget e (by simp)
    rw [List.map_cons]
    simp [toDtoEntriesWith, harr, hg, hprim,
      dtoCast_passthrough recur e.1.typeName e.2 hd1 hd2,
      ih (fun a ha => hall a (by simp [ha])) (fun a ha => hget a (by simp [ha]))]

theorem dtoFields_of_hash (recur : String → RVal → Option RVal) (nm : Names)
    (options : Option Options) (cs : Casters) (D : List (String × RVal))
    (pvs : List (Property × RVal))
    (hall : ∀ e ∈ pvs, e.1.isPrimitive = true ∧ e.1.isArray = false ∧
      typeOverride options e.1.typeName = none ∧
      (e.2.isStr = false ∨ primPassthrough options e.1.typeName = true))
    (hget : ∀ e ∈ pvs,
      List.lookup e.1.name D = if e.2.isNil then none else some e.2) :
    dtoFieldsWith recur nm options cs (RVal.hash D) (pvs.map Prod.fst) =
      some (pvs.map (fun e => (nm.propertyName e.1, e.2))) := by
  induction pvs with
  | nil => rfl
  | cons e rest ih =>
    obtain ⟨hprim, harr, hov, hs⟩ := hall e (by simp)
    have hg := hget e (by simp)
    rw [List.map_cons]
    have hraw : hashGet (RVal.hash D) e.1.name = some e.2 := by
      show some ((List.lookup e.1.name D).getD RVal.nil) = some e.2
      rw [hg]
      cases hn : e.2.isNil with
      | true => simp [(RVal.isNil_true_iff e.2).mp hn]
      | false => simp
    have hcast : castDtoPropWith recur options cs e.1.typeName true e.2 = some e.2 :=
      castDtoProp_passthrough recur options cs e.1.typeName e.2 hov hs
    simp [dtoFieldsWith, harr, hraw, hprim, hcast,
      ih (fun a ha => hall a (by simp [ha])) (fun a ha => hget a (by simp [ha]))]

/-! ## Claim theorems -/

/-- C9: for every service IR and options the generator's output contains
exactly one client artifact per interface followed by exactly one mapper
artifact, so the total artifact count equals the number of interfaces plus
one, regardless of how many methods resolve to HTTP bindings. -/
theorem C9_artifact_count (nm : Names) (service : Service)
    (options : Option Options) :
    (generator nm service options).length = service.interfaces.length + 1 := by
  simp [generator, generateClients, generateMapper]

/-- C10: the operation-binding lookup keys entries by the snake-cased method
name; the built map returns, for each normalized name, the value of the last
enumerated entry with that name (later `Map.set` calls silently overwrite
earlier ones), and any two method names with equal normalized forms resolve
to the same binding. -/
theorem C10_last_binding_wins (service : Service) (n₁ n₂ : String)
    (h : snake n₁ = snake n₂) :
    getHttp service n₁ =
      ((httpEntries service).reverse.find? (fun e => e.1 == snake n₁)).map
        Prod.snd ∧
    getHttp service n₁ = getHttp service n₂ := by
  refine ⟨getHttp_eq_lastWins service n₁, ?_⟩
  unfold getHttp
  rw [h]

/-- Witness for C10: two method names differing only in casing share a
normalized form and resolve to the same binding, which is the last-declared
one (the POST on /b, declared after the GET on /a). -/
theorem C10_last_binding_wins_witness :
    snake "fooBar" = snake "FooBar" ∧
    getHttp svc10 "fooBar" = getHttp svc10 "FooBar" ∧
    getHttp svc10 "fooBar" =
      some ({ name := "FooBar", verb := "post" },
        { path := "/b", methods := [{ name := "FooBar", verb := "post" }] }) :=
  ⟨by decide, (C10_last_binding_wins svc10 "fooBar" "FooBar" (by decide)).2,
    by decide⟩

/-- C5: the generated signature parameter entries and the definition's
keyword parameter list equal the spec's description — required parameters
first in original declaration order, then optional parameters in original
declaration order, each optional type wrapped as nilable — and the sort
itself is the required/optional stable partition. -/
theorem C5_parameter_order (nm : Names) (method : Method) :
    signatureParameterEntries nm method =
      specSignatureParameterEntries nm method ∧
    definitionParameterList nm method = specDefinitionParameterList nm method ∧
    sortParameters method.parameters =
      method.parameters.filter (fun p => p.required) ++
        method.parameters.filter (fun p => !p.required) := by
  refine ⟨?_, ?_, sortParameters_eq_filter method.parameters⟩
  · unfold signatureParameterEntries specSignatureParameterEntries
      specSortedParameters
    rw [sortParameters_eq_filter]
  · unfold definitionParameterList specDefinitionParameterList
      specSortedParameters
    rw [sortParameters_eq_filter]

/-- C2 counterexample: a method with no resolvable operation binding still
gets its signature emitted into the client (only the definition is omitted),
so the claim that no client code at all is emitted for it is false. -/
theorem C2_counterexample :
    getHttp svc2 "orphan" = none ∧
    buildDefinition nmX svc2 m2 = [] ∧
    "    sig \x7b override.void \x7d" ∈ buildClient nmX svc2 none int2 := by
  refine ⟨by decide, rfl, by decide⟩

/-- C2 amended: a method whose name has no resolvable operation binding
emits no definition and raises no error, but its signature is still emitted
(the signature builder never consults the binding resolver). -/
theorem C2_silent_omission (nm : Names) (service : Service) (method : Method)
    (h : getHttp service method.name = none) :
    buildDefinition nm service method = [] ∧ buildSignature nm method ≠ [] := by
  constructor
  · unfold buildDefinition
    rw [h]
  · exact buildSignature_ne_nil nm method

/-- Witness for C2 amended at the orphan method. -/
theorem C2_silent_omission_witness :
    getHttp svc2 m2.name = none ∧
    buildDefinition nmX svc2 m2 = [] ∧ buildSignature nmX m2 ≠ [] :=
  ⟨by decide, (C2_silent_omission nmX svc2 m2 (by decide)).1,
    (C2_silent_omission nmX svc2 m2 (by decide)).2⟩

/-- C4 counterexample: with a custom caster configured for integer, the
wire-to-domain property cast uses it but the domain-to-wire property cast
still emits the default passthrough text, so the claim that the override
applies in both generated conversion functions is false. -/
theorem C4_counterexample :
    buildPropCast opts4 "integer" true "dto['count']" =
      "my_cast(dto['count'].to_s)" ∧
    buildDtoPropCast "integer" true "widget.count" = "widget.count" ∧
    ("widget.count" : String) ≠ "my_cast(widget.count.to_s)" := by
  refine ⟨rfl, rfl, by decide⟩

/-- C4 amended: a configured custom caster replaces the default cast rule in
the wire-to-domain property cast and in the shared primitive-cast builder;
the domain-to-wire cast builder never consults the types option (the source
function does not even take the options). -/
theorem C4_override_wire_to_domain_only (options : Option Options)
    (name base c : String) (h : typeOverride options name = some c) :
    buildPropCast options name true base = c ++ "(" ++ base ++ ".to_s)" ∧
    buildPrimitiveCast options name base = c ++ "(" ++ base ++ ")" := by
  constructor
  · unfold buildPropCast
    rw [if_pos rfl, h]
  · unfold buildPrimitiveCast
    rw [h]

/-- Witness for C4 amended at the concrete override configuration. -/
theorem C4_override_wire_to_domain_only_witness :
    typeOverride opts4 "integer" = some "my_cast" ∧
    buildPropCast opts4 "integer" true "dto['count']" =
      "my_cast(dto['count'].to_s)" ∧
    buildPrimitiveCast opts4 "integer" "dto['count']" = "my_cast(dto['count'])" :=
  ⟨rfl,
    (C4_override_wire_to_domain_only opts4 "integer" "dto['count']" "my_cast"
      rfl).1,
    (C4_override_wire_to_domain_only opts4 "integer" "dto['count']" "my_cast"
      rfl).2⟩

/-- C1 counterexample: the parameter fooBar resolves (up to case
normalization) to the HttpParameter named foo_bar bound to query, but the
emitted query hash key is the parameter's declared name fooBar, not the
HttpParameter's wire name foo_bar; the claim as stated is false. -/
theorem C1_counterexample :
    getHttpParameter svc1 "getThing" "fooBar" = some hp1 ∧
    hp1.name = "foo_bar" ∧
    queryEntries svc1 m1 = [("fooBar", p1)] ∧
    ("fooBar" : String) ≠ "foo_bar" := by
  refine ⟨by decide, rfl, by decide, by decide⟩

/-- C1 amended: every query-bound parameter is added to the query hash under
the parameter's declared name (which agrees with the wire name only up to
case normalization), and the emitted compaction drops nil-valued entries
while keeping every non-nil entry. -/
theorem C1_query_keys_and_compaction (service : Service) (method : Method)
    (h : (method.parameters.map (fun p => p.name)).Nodup) :
    queryEntries service method =
      method.parameters.filterMap (fun p =>
        match getHttpParameter service method.name p.name with
        | none => none
        | some hp =>
          if hp.location == "query" then some (p.name, p) else none) ∧
    (∀ env : Parameter → RVal,
      (querySem (queryEntries service method) env).all
        (fun e => !e.2.isNil) = true) ∧
    (∀ (env : Parameter → RVal) (k : String) (p : Parameter),
      (k, p) ∈ queryEntries service method → (env p).isNil = false →
      (k, env p) ∈ querySem (queryEntries service method) env) := by
  refine ⟨?_, ?_, ?_⟩
  · unfold queryEntries
    rw [paramsByName_of_nodup service method h, List.filterMap_map]
    rfl
  · intro env
    rw [List.all_eq_true]
    intro e he
    exact (List.mem_filter.mp he).2
  · intro env k p hmem hnil
    unfold querySem
    exact List.mem_filter.mpr
      ⟨List.mem_map.mpr ⟨(k, p), hmem, rfl⟩, by simp [hnil]⟩

/-- Witness for C1 amended at the fixture service. -/
theorem C1_query_keys_and_compaction_witness :
    queryEntries svc1 m1 =
      m1.parameters.filterMap (fun p =>
        match getHttpParameter svc1 m1.name p.name with
        | none => none
        | some hp =>
          if hp.location == "query" then some (p.name, p) else none) ∧
    queryEntries svc1 m1 = [("fooBar", p1)] :=
  ⟨(C1_query_keys_and_compaction svc1 m1 (by decide)).1, by decide⟩

/-- C3: every generated mapping function is fail-open: whenever the body of
a type's wire-to-domain or domain-to-wire conversion fails, the function
returns its original argument; enum deserialization of a value outside the
declared member set returns the original wire value, and enum serialization
of an invalid receiver returns the original argument. -/
theorem C3_fail_open (nm : Names) (service : Service) (options : Option Options)
    (cs : Casters) (fuel : Nat) (t : TypeDef) (e : EnumDef) (dto x v : RVal)
    (s : String) :
    (dtoToTypeBody nm service options cs fuel t dto = none →
      mapDtoToType nm service options cs fuel t dto = dto) ∧
    (typeToDtoBody nm service options cs fuel t x = none →
      mapTypeToDto nm service options cs fuel t x = x) ∧
    (enumDeserialize e v = none → mapDtoToEnum e v = v) ∧
    (e.members.contains s = false → mapDtoToEnum e (.str s) = .str s) ∧
    (enumSerialize v = none → mapEnumToDto v = v) := by
  refine ⟨?_, ?_, ?_, ?_, ?_⟩
  · intro h
    unfold mapDtoToType
    rw [h]
    rfl
  · intro h
    unfold mapTypeToDto
    rw [h]
    rfl
  · intro h
    unfold mapDtoToEnum
    rw [h]
    rfl
  · intro h
    have hs : s ∉ e.members := by simpa using h
    unfold mapDtoToEnum enumDeserialize
    simp [hs]
  · intro h
    unfold mapEnumToDto
    rw [h]
    rfl

/-- Witness for C3 at concrete failing conversions: unparseable integer text
in the type body, a non-struct receiver in the dto direction, an unknown
enum wire value and a non-enum serialize receiver. -/
theorem C3_fail_open_witness :
    dtoToTypeBody nmX svc3 none cs0 1 t3 dto3 = none ∧
    mapDtoToType nmX svc3 none cs0 1 t3 dto3 = dto3 ∧
    mapTypeToDto nmX svc3 none cs0 1 t3 (.int 7) = .int 7 ∧
    mapDtoToEnum e3 (.str "zzz") = .str "zzz" ∧
    mapEnumToDto (.int 1) = .int 1 :=
  ⟨rfl,
    (C3_fail_open nmX svc3 none cs0 1 t3 e3 dto3 (.int 7) (.int 1) "zzz").1 rfl,
    (C3_fail_open nmX svc3 none cs0 1 t3 e3 dto3 (.int 7) (.int 1) "zzz").2.1 rfl,
    (C3_fail_open nmX svc3 none cs0 1 t3 e3 dto3 (.int 7) (.int 1) "zzz").2.2.2.1
      rfl,
    (C3_fail_open nmX svc3 none cs0 1 t3 e3 dto3 (.int 7) (.int 1) "zzz").2.2.2.2
      rfl⟩

/-- C7 counterexample: with a custom caster configured (here the identity
function), an already-domain-typed integer is stringified and handed to the
caster, so it does not pass through unmodified; the claim's "including when
a custom caster is configured" is false. -/
theorem C7_counterexample :
    castDtoPropWith (fun _ _ => none) opts4 csId "integer" true (.int 5) =
      some (.str "5") ∧
    RVal.str "5" ≠ RVal.int 5 := by
  refine ⟨rfl, by simp⟩

/-- C7 amended: without a configured caster the generated primitive cast is
defensive — a non-string wire value passes through unmodified, only strings
are converted; with a configured caster the wire value is unconditionally
stringified and passed to the caster. -/
theorem C7_defensive_casts (recur : String → RVal → Option RVal)
    (options : Option Options) (cs : Casters) (name : String) (v : RVal) :
    (typeOverride options name = none → v.isStr = false →
      castDtoPropWith recur options cs name true v = some v) ∧
    (∀ c, typeOverride options name = some c →
      castDtoPropWith recur options cs name true v = cs c (.str (toS v))) := by
  constructor
  · intro hov hs
    exact castDtoProp_passthrough recur options cs name v hov (Or.inl hs)
  · intro c hc
    unfold castDtoPropWith
    rw [if_pos rfl, hc]

/-- Witness for C7 amended: defensive passthrough of an integer without an
override, and unconditional stringification with one. -/
theorem C7_defensive_casts_witness :
    castDtoPropWith (fun _ _ => none) none cs0 "integer" true (.int 5) =
      some (.int 5) ∧
    castDtoPropWith (fun _ _ => none) opts4 csId "integer" true (.int 5) =
      csId "my_cast" (.str (toS (.int 5))) :=
  ⟨(C7_defensive_casts (fun _ _ => none) none cs0 "integer" (.int 5)).1 rfl rfl,
    (C7_defensive_casts (fun _ _ => none) opts4 csId "integer" (.int 5)).2
      "my_cast" rfl⟩

/-- C6: for every method whose parameters have distinct, nonempty names, the
generated URI equals the spec's description — base root, then /v plus the
major version, then the path template with each placeholder segment naming a
path-bound parameter replaced exactly once by that parameter's runtime
interpolation, and every other segment kept literal. -/
theorem C6_uri_refinement (nm : Names) (service : Service)
    (httpPath : HttpPath) (method : Method)
    (hnd : (method.parameters.map (fun p => p.name)).Nodup)
    (hne : ∀ p ∈ method.parameters, p.name ≠ "") :
    buildUri nm service httpPath method = specUri nm service httpPath method := by
  unfold buildUri specUri
  rw [List.map_congr_left
    (fun seg _ => substSegment_eq_spec nm service method seg hnd hne)]

/-- Witness for C6 at the spec's own end-to-end example: GET /widgets/:id
with id bound to path produces the base root, version segment and the
substituted id interpolation with no leftover placeholder. -/
theorem C6_uri_refinement_witness :
    buildUri nmX svc6 hpPath6 m6 = specUri nmX svc6 hpPath6 m6 ∧
    buildUri nmX svc6 hpPath6 m6 = "#\x7b@api_root\x7d/v1/widgets/#\x7bid\x7d" :=
  ⟨C6_uri_refinement nmX svc6 hpPath6 m6 (by decide) (by decide), by decide⟩

/-- C8: for a type whose properties are all non-array primitives other than
date and date-time, with no configured custom caster, and a domain instance
whose wire and domain forms coincide (no field holds a string unless its
primitive is a passthrough kind), converting to the wire form and back is the
identity: wireToDomain (domainToWire x) = x. -/
theorem C8_roundtrip (nm : Names) (service : Service) (options : Option Options)
    (cs : Casters) (fuel : Nat) (t : TypeDef) (pvs : List (Property × RVal))
    (hprops : t.properties = pvs.map Prod.fst)
    (hall : ∀ e ∈ pvs, e.1.isPrimitive = true ∧ e.1.isArray = false ∧
      typeOverride options e.1.typeName = none ∧
      e.1.typeName ≠ "date" ∧ e.1.typeName ≠ "date-time" ∧
      (e.2.isStr = false ∨ primPassthrough options e.1.typeName = true))
    (hwire : (pvs.map (fun e => e.1.name)).Nodup)
    (hdom : (pvs.map (fun e => nm.propertyName e.1)).Nodup) :
    mapDtoToType nm service options cs fuel t
        (mapTypeToDto nm service options cs fuel t
          (RVal.obj t.name (pvs.map (fun e => (nm.propertyName e.1, e.2))))) =
      RVal.obj t.name (pvs.map (fun e => (nm.propertyName e.1, e.2))) := by
  have hget1 : ∀ e ∈ pvs,
      fieldGet (RVal.obj t.name (pvs.map (fun e => (nm.propertyName e.1, e.2))))
        (nm.propertyName e.1) = some e.2 := by
    intro e he
    have hmem : (nm.propertyName e.1, e.2) ∈
        pvs.map (fun e => (nm.propertyName e.1, e.2)) :=
      List.mem_map.mpr ⟨e, he, rfl⟩
    have hnd : ((pvs.map (fun e => (nm.propertyName e.1, e.2))).map
        Prod.fst).Nodup := by
      simpa [List.map_map, Function.comp] using hdom
    have hl := lookup_of_nodup_mem _ (nm.propertyName e.1) e.2 hnd hmem
    show (match (pvs.map (fun e => (nm.propertyName e.1, e.2))).lookup
        (nm.propertyName e.1) with
      | some v => some v
      | none => none) = some e.2
    rw [hl]
  have h2 : toDtoEntriesWith (mapNamedToDtoSem nm service options cs fuel) nm
      (RVal.obj t.name (pvs.map (fun e => (nm.propertyName e.1, e.2))))
      t.properties = some (pvs.map (fun e => (e.1.name, e.2))) := by
    rw [hprops]
    exact toDtoEntries_of_fields _ nm _ pvs
      (fun e he => ⟨(hall e he).1, (hall e he).2.1, (hall e he).2.2.2.1,
        (hall e he).2.2.2.2.1⟩)
      hget1
  have h3 : mapTypeToDto nm service options cs fuel t
      (RVal.obj t.name (pvs.map (fun e => (nm.propertyName e.1, e.2)))) =
      RVal.hash (compactHash (pvs.map (fun e => (e.1.name, e.2)))) := by
    unfold mapTypeToDto typeToDtoBody typeToDtoBodyWith
    rw [h2]
    rfl
  have h4 : ∀ e ∈ pvs,
      List.lookup e.1.name
        (compactHash (pvs.map (fun e => (e.1.name, e.2)))) =
      if e.2.isNil then none else some e.2 := by
    intro e he
    unfold compactHash
    apply compact_lookup
    · simpa [List.map_map, Function.comp] using hwire
    · exact List.mem_map.mpr ⟨e, he, rfl⟩
  have h5 : dtoFieldsWith (mapDtoToNamedSem nm service options cs fuel) nm
      options cs (RVal.hash (compactHash (pvs.map (fun e => (e.1.name, e.2)))))
      t.properties = some (pvs.map (fun e => (nm.propertyName e.1, e.2))) := by
    rw [hprops]
    exact dtoFields_of_hash _ nm options cs _ pvs
      (fun e he => ⟨(hall e he).1, (hall e he).2.1, (hall e he).2.2.1,
        (hall e he).2.2.2.2.2⟩)
      h4
  rw [h3]
  unfold mapDtoToType dtoToTypeBody dtoToTypeBodyWith
  rw [h5]
  rfl

/-- Witness for C8 at a concrete widget type: a string id and an integer
count survive the domain-to-wire then wire-to-domain round trip unchanged. -/
theorem C8_roundtrip_witness :
    mapDtoToType nmX svc8 none cs0 0 t8
        (mapTypeToDto nmX svc8 none cs0 0 t8
          (RVal.obj t8.name (pvs8.map (fun e => (nmX.propertyName e.1, e.2))))) =
      RVal.obj t8.name (pvs8.map (fun e => (nmX.propertyName e.1, e.2))) :=
  C8_roundtrip nmX svc8 none cs0 0 t8 pvs8 rfl (by decide) (by decide)
    (by decide)
